import Mathlib

/-!
Shallow embedding of the command execution helper in src/ssh_poll.py
(class MySSH).  Python strings are modelled as lists of characters,
Python None as Option.none, and the paramiko channel as an oracle of
per-iteration observations.  Each definition below embeds the Python
function of the same (or closely matching) name; comments point out
where the source computes values that it never uses.
-/

namespace SshPoll

/-- Helper for the split functions: prepend a character to the first
piece of an already computed split result. -/
def glueHead (x : Char) : List (List Char) → List (List Char)
  | [] => [[x]]
  | p :: ps => (x :: p) :: ps

/-- Python str.split with a one character separator: cut the character
list at every occurrence of c.  The result is never empty, and the
empty list splits to a single empty piece, as in Python. -/
def splitOnChar (c : Char) : List Char → List (List Char)
  | [] => [[]]
  | x :: xs => if x = c then [] :: splitOnChar c xs else glueHead x (splitOnChar c xs)

/-- Python str.split with the two character separator backslash
followed by the letter n, scanning left to right.  Occurrences of this
separator can never overlap, so the greedy scan cuts at every
occurrence, as Python does. -/
def splitOnEsc : List Char → List (List Char)
  | [] => [[]]
  | [x] => [[x]]
  | x :: y :: xs =>
    if x = '\\' ∧ y = 'n' then [] :: splitOnEsc xs
    else glueHead x (splitOnEsc (y :: xs))

/-- Python substring test for the two character sequence backslash
followed by the letter n. -/
def containsEsc : List Char → Bool
  | [] => false
  | [_] => false
  | x :: y :: xs => (x == '\\' && y == 'n') || containsEsc (y :: xs)

/-- Python str.join with a one character separator. -/
def joinWithChar (c : Char) : List (List Char) → List Char
  | [] => []
  | [p] => p
  | p :: q :: ps => p ++ c :: joinWithChar c (q :: ps)

/-- Embedding of MySSH._run_fix_input_data.  If the input is None the
result is the empty sequence.  Otherwise, when the raw text is
nonempty and contains the two character escape, every escape is
converted to a real newline (split on the escape, join with newline),
and in every case the resulting text is split on real newlines.  Note
that in Python an empty string split on a newline gives a one element
list holding the empty string. -/
def run_fix_input_data : Option (List Char) → List (List Char)
  | none => []
  | some raw =>
    splitOnChar '\n'
      (if 0 < raw.length then
        (if containsEsc raw then joinWithChar '\n' (splitOnEsc raw) else raw)
      else raw)

/-- Proof side characterization: split at every real newline and at
every occurrence of the two character escape, scanning left to right.
Related to run_fix_input_data below; not itself part of the source. -/
def splitOnBreak : List Char → List (List Char)
  | [] => [[]]
  | [x] => if x = '\n' then [[], []] else [[x]]
  | x :: y :: xs =>
    if x = '\\' ∧ y = 'n' then [] :: splitOnBreak xs
    else if x = '\n' then [] :: splitOnBreak (y :: xs)
    else glueHead x (splitOnBreak (y :: xs))

theorem glueHead_ne_nil (x : Char) (ps : List (List Char)) : glueHead x ps ≠ [] := by
  cases ps <;> simp [glueHead]

theorem splitOnChar_ne_nil (c : Char) (l : List Char) : splitOnChar c l ≠ [] := by
  cases l with
  | nil => simp [splitOnChar]
  | cons x xs =>
    simp only [splitOnChar]
    split
    · simp
    · exact glueHead_ne_nil _ _

theorem splitOnEsc_ne_nil (l : List Char) : splitOnEsc l ≠ [] := by
  cases l with
  | nil => simp [splitOnEsc]
  | cons x xs =>
    cases xs with
    | nil => simp [splitOnEsc]
    | cons y ys =>
      simp only [splitOnEsc]
      split
      · simp
      · exact glueHead_ne_nil _ _

theorem glueHead_append (x : Char) (P Q : List (List Char)) (hP : P ≠ []) :
    glueHead x (P ++ Q) = glueHead x P ++ Q := by
  cases P with
  | nil => exact absurd rfl hP
  | cons p ps => simp [glueHead]

theorem splitOnChar_cons_self (c : Char) (l : List Char) :
    splitOnChar c (c :: l) = [] :: splitOnChar c l := by
  simp [splitOnChar]

theorem splitOnChar_cons_ne (c x : Char) (l : List Char) (h : x ≠ c) :
    splitOnChar c (x :: l) = glueHead x (splitOnChar c l) := by
  simp [splitOnChar, h]

theorem splitOnChar_append (c : Char) (a b : List Char) :
    splitOnChar c (a ++ c :: b) = splitOnChar c a ++ splitOnChar c b := by
  induction a with
  | nil => simp [splitOnChar]
  | cons x xs ih =>
    by_cases hx : x = c
    · subst hx
      rw [List.cons_append, splitOnChar_cons_self, splitOnChar_cons_self, ih]
      rfl
    · rw [List.cons_append, splitOnChar_cons_ne c x _ hx, splitOnChar_cons_ne c x _ hx, ih,
        glueHead_append _ _ _ (splitOnChar_ne_nil c xs)]

theorem splitOnChar_join (c : Char) (ps : List (List Char)) (h : ps ≠ []) :
    splitOnChar c (joinWithChar c ps) = ps.flatMap (splitOnChar c) := by
  induction ps with
  | nil => exact absurd rfl h
  | cons p qs ih =>
    cases qs with
    | nil => simp [joinWithChar, List.flatMap]
    | cons q rs =>
      have hj : joinWithChar c (p :: q :: rs) = p ++ c :: joinWithChar c (q :: rs) := rfl
      rw [hj, splitOnChar_append, ih (by simp)]
      simp [List.flatMap]

theorem splitOnBreak_cons_nl (l : List Char) :
    splitOnBreak ('\n' :: l) = [] :: splitOnBreak l := by
  cases l with
  | nil =>
    have h : splitOnBreak ['\n'] = if ('\n' : Char) = '\n' then [[], []] else [['\n']] := rfl
    rw [h, if_pos rfl]
    rfl
  | cons y xs =>
    have h : splitOnBreak ('\n' :: y :: xs) =
        if ('\n' : Char) = '\\' ∧ y = 'n' then [] :: splitOnBreak xs
        else if ('\n' : Char) = '\n' then [] :: splitOnBreak (y :: xs)
        else glueHead '\n' (splitOnBreak (y :: xs)) := rfl
    rw [h, if_neg (fun hc => absurd hc.1 (by decide)), if_pos rfl]

theorem splitOnBreak_cons_esc (l : List Char) :
    splitOnBreak ('\\' :: 'n' :: l) = [] :: splitOnBreak l := by
  have h : splitOnBreak ('\\' :: 'n' :: l) =
      if ('\\' : Char) = '\\' ∧ ('n' : Char) = 'n' then [] :: splitOnBreak l
      else if ('\\' : Char) = '\n' then [] :: splitOnBreak ('n' :: l)
      else glueHead '\\' (splitOnBreak ('n' :: l)) := rfl
  rw [h, if_pos ⟨rfl, rfl⟩]

theorem splitOnBreak_cons_other (x : Char) (l : List Char) (hx : x ≠ '\n')
    (hp : ¬(x = '\\' ∧ l.head? = some 'n')) :
    splitOnBreak (x :: l) = glueHead x (splitOnBreak l) := by
  cases l with
  | nil =>
    have h : splitOnBreak [x] = if x = '\n' then [[], []] else [[x]] := rfl
    rw [h, if_neg hx]
    rfl
  | cons y xs =>
    have h : splitOnBreak (x :: y :: xs) =
        if x = '\\' ∧ y = 'n' then [] :: splitOnBreak xs
        else if x = '\n' then [] :: splitOnBreak (y :: xs)
        else glueHead x (splitOnBreak (y :: xs)) := rfl
    rw [h, if_neg (fun hc => hp ⟨hc.1, by rw [hc.2]; rfl⟩), if_neg hx]

theorem splitOnEsc_cons_esc (l : List Char) :
    splitOnEsc ('\\' :: 'n' :: l) = [] :: splitOnEsc l := by
  have h : splitOnEsc ('\\' :: 'n' :: l) =
      if ('\\' : Char) = '\\' ∧ ('n' : Char) = 'n' then [] :: splitOnEsc l
      else glueHead '\\' (splitOnEsc ('n' :: l)) := rfl
  rw [h, if_pos ⟨rfl, rfl⟩]

theorem splitOnEsc_cons_other (x y : Char) (l : List Char) (h : ¬(x = '\\' ∧ y = 'n')) :
    splitOnEsc (x :: y :: l) = glueHead x (splitOnEsc (y :: l)) := by
  have h2 : splitOnEsc (x :: y :: l) =
      if x = '\\' ∧ y = 'n' then [] :: splitOnEsc l
      else glueHead x (splitOnEsc (y :: l)) := rfl
  rw [h2, if_neg h]

theorem splitOnBreak_of_no_esc :
    ∀ (n : Nat) (l : List Char), l.length ≤ n → containsEsc l = false →
      splitOnBreak l = splitOnChar '\n' l := by
  intro n
  induction n with
  | zero =>
    intro l hl _
    have h0 : l = [] := List.length_eq_zero.mp (Nat.le_zero.mp hl)
    subst h0
    rfl
  | succ n ih =>
    intro l hl hc
    cases l with
    | nil => rfl
    | cons x t =>
      cases t with
      | nil =>
        by_cases hx : x = '\n'
        · subst hx
          rfl
        · have h1 : splitOnBreak [x] = if x = '\n' then [[], []] else [[x]] := rfl
          rw [h1, if_neg hx, splitOnChar_cons_ne _ _ _ hx]
          rfl
      | cons y u =>
        have hcc : containsEsc (x :: y :: u) = ((x == '\\' && y == 'n') || containsEsc (y :: u)) := rfl
        rw [hcc] at hc
        have h1 : (x == '\\' && y == 'n') = false := by
          cases hb : (x == '\\' && y == 'n') with
          | false => rfl
          | true => rw [hb] at hc; simp at hc
        have h2 : containsEsc (y :: u) = false := by
          cases hb : containsEsc (y :: u) with
          | false => rfl
          | true => rw [hb] at hc; simp at hc
        have hneg : ¬(x = '\\' ∧ y = 'n') := by
          intro hcon
          rw [hcon.1, hcon.2] at h1
          simp at h1
        have hlen : (y :: u).length ≤ n := by
          simp only [List.length_cons] at hl ⊢
          omega
        by_cases hx : x = '\n'
        · subst hx
          rw [splitOnBreak_cons_nl, splitOnChar_cons_self, ih (y :: u) hlen h2]
        · rw [splitOnBreak_cons_other x _ hx
              (fun hcon => hneg ⟨hcon.1, by simpa using hcon.2⟩),
            splitOnChar_cons_ne _ _ _ hx, ih (y :: u) hlen h2]

theorem splitOnBreak_eq_flatMap :
    ∀ (n : Nat) (l : List Char), l.length ≤ n →
      splitOnBreak l = (splitOnEsc l).flatMap (splitOnChar '\n') := by
  intro n
  induction n with
  | zero =>
    intro l hl
    have h0 : l = [] := List.length_eq_zero.mp (Nat.le_zero.mp hl)
    subst h0
    rfl
  | succ n ih =>
    intro l hl
    cases l with
    | nil => rfl
    | cons x t =>
      cases t with
      | nil =>
        by_cases hx : x = '\n'
        · subst hx
          rfl
        · have h1 : splitOnBreak [x] = if x = '\n' then [[], []] else [[x]] := rfl
          have h2 : splitOnEsc [x] = [[x]] := rfl
          have h3 : splitOnChar '\n' [x] = [[x]] := by
            rw [splitOnChar_cons_ne _ _ _ hx]
            rfl
          rw [h1, if_neg hx, h2]
          simp [List.flatMap, h3]
      | cons y u =>
        by_cases hesc : x = '\\' ∧ y = 'n'
        · obtain ⟨ha, hb⟩ := hesc
          subst ha
          subst hb
          have hlen : u.length ≤ n := by
            simp only [List.length_cons] at hl
            omega
          rw [splitOnBreak_cons_esc, splitOnEsc_cons_esc, ih u hlen]
          simp [List.flatMap, splitOnChar]
        · have hlen : (y :: u).length ≤ n := by
            simp only [List.length_cons] at hl ⊢
            omega
          obtain ⟨p, ps, hS⟩ : ∃ p ps, splitOnEsc (y :: u) = p :: ps := by
            cases hS : splitOnEsc (y :: u) with
            | nil => exact absurd hS (splitOnEsc_ne_nil _)
            | cons p ps => exact ⟨p, ps, rfl⟩
          rw [splitOnEsc_cons_other x y u hesc, hS]
          have hg : glueHead x (p :: ps) = (x :: p) :: ps := rfl
          rw [hg]
          by_cases hx : x = '\n'
          · subst hx
            rw [splitOnBreak_cons_nl, ih (y :: u) hlen, hS]
            simp [List.flatMap, splitOnChar_cons_self]
          · rw [splitOnBreak_cons_other x _ hx
                (fun hcon => hesc ⟨hcon.1, by simpa using hcon.2⟩),
              ih (y :: u) hlen, hS]
            have hfp : splitOnChar '\n' p ≠ [] := splitOnChar_ne_nil _ _
            simp only [List.flatMap, List.map_cons, List.flatten_cons]
            rw [splitOnChar_cons_ne _ _ _ hx,
              glueHead_append _ _ _ hfp]

theorem containsEsc_pos (l : List Char) (h : containsEsc l = true) : 0 < l.length := by
  cases l with
  | nil => simp [containsEsc] at h
  | cons x t => simp

theorem run_fix_eq_splitOnBreak (raw : List Char) :
    run_fix_input_data (some raw) = splitOnBreak raw := by
  have hshape : run_fix_input_data (some raw) =
      splitOnChar '\n'
        (if 0 < raw.length then
          (if containsEsc raw then joinWithChar '\n' (splitOnEsc raw) else raw)
        else raw) := rfl
  rw [hshape]
  by_cases hc : containsEsc raw = true
  · rw [if_pos (containsEsc_pos raw hc), if_pos hc,
      splitOnChar_join _ _ (splitOnEsc_ne_nil raw)]
    exact (splitOnBreak_eq_flatMap raw.length raw (Nat.le_refl _)).symm
  · have hc2 : containsEsc raw = false := by
      cases hb : containsEsc raw with
      | false => rfl
      | true => exact absurd hb hc
    have hcollapse :
        (if 0 < raw.length then
          (if containsEsc raw then joinWithChar '\n' (splitOnEsc raw) else raw)
        else raw) = raw := by
      rw [hc2]
      simp
    rw [hcollapse]
    exact (splitOnBreak_of_no_esc raw.length raw (Nat.le_refl _) hc2).symm

theorem splitOnBreak_break_aux :
    ∀ (n : Nat) (p s : List Char), p.length ≤ n →
      splitOnBreak (p ++ '\n' :: s) = splitOnBreak (p ++ '\\' :: 'n' :: s) := by
  intro n
  induction n with
  | zero =>
    intro p s hp
    have h0 : p = [] := List.length_eq_zero.mp (Nat.le_zero.mp hp)
    subst h0
    rw [List.nil_append, List.nil_append, splitOnBreak_cons_nl, splitOnBreak_cons_esc]
  | succ n ih =>
    intro p s hp
    cases p with
    | nil =>
      rw [List.nil_append, List.nil_append, splitOnBreak_cons_nl, splitOnBreak_cons_esc]
    | cons x p1 =>
      by_cases hx : x = '\n'
      · subst hx
        have hlen : p1.length ≤ n := by
          simp only [List.length_cons] at hp
          omega
        rw [List.cons_append, List.cons_append, splitOnBreak_cons_nl, splitOnBreak_cons_nl,
          ih p1 s hlen]
      · cases p1 with
        | nil =>
          have hh1 : ¬(x = '\\' ∧ ('\n' :: s).head? = some 'n') := by
            intro hcon
            have h2 := hcon.2
            simp at h2
          have hh2 : ¬(x = '\\' ∧ ('\\' :: 'n' :: s).head? = some 'n') := by
            intro hcon
            have h2 := hcon.2
            simp at h2
          rw [List.singleton_append, List.singleton_append,
            splitOnBreak_cons_other x _ hx hh1,
            splitOnBreak_cons_other x _ hx hh2,
            splitOnBreak_cons_nl, splitOnBreak_cons_esc]
        | cons y p2 =>
          by_cases hesc : x = '\\' ∧ y = 'n'
          · obtain ⟨ha, hb⟩ := hesc
            subst ha
            subst hb
            have hlen : p2.length ≤ n := by
              simp only [List.length_cons] at hp
              omega
            rw [List.cons_append, List.cons_append, List.cons_append, List.cons_append,
              splitOnBreak_cons_esc, splitOnBreak_cons_esc, ih p2 s hlen]
          · have hlen : (y :: p2).length ≤ n := by
              simp only [List.length_cons] at hp ⊢
              omega
            have hh1 : ¬(x = '\\' ∧ ((y :: p2) ++ '\n' :: s).head? = some 'n') := by
              intro hcon
              apply hesc
              refine ⟨hcon.1, ?_⟩
              have h2 := hcon.2
              simpa using h2
            have hh2 : ¬(x = '\\' ∧ ((y :: p2) ++ '\\' :: 'n' :: s).head? = some 'n') := by
              intro hcon
              apply hesc
              refine ⟨hcon.1, ?_⟩
              have h2 := hcon.2
              simpa using h2
            simp only [List.cons_append]
            simp only [List.cons_append] at hh1 hh2
            rw [splitOnBreak_cons_other x _ hx hh1,
              splitOnBreak_cons_other x _ hx hh2]
            have hrec := ih (y :: p2) s hlen
            simp only [List.cons_append] at hrec
            rw [hrec]

/-- C6: replacing a real line break anywhere in the raw input by the
literal two character escape backslash n, or vice versa, does not
change the ordered line sequence produced by run_fix_input_data. -/
theorem fix_input_break_forms_agree (p s : List Char) :
    run_fix_input_data (some (p ++ '\n' :: s)) =
      run_fix_input_data (some (p ++ '\\' :: 'n' :: s)) := by
  rw [run_fix_eq_splitOnBreak, run_fix_eq_splitOnBreak]
  exact splitOnBreak_break_aux p.length p s (Nat.le_refl _)

/-- C5 counterexample: run_fix_input_data applied to the empty string
does not return the empty sequence, refuting the claim that an empty
input yields an empty sequence of lines. -/
theorem fix_input_empty_not_nil : run_fix_input_data (some []) ≠ [] := by
  decide

/-- C5 amended: run_fix_input_data of an absent input returns the empty
sequence, while the empty string returns the one element sequence
holding the empty line, because in Python splitting an empty string on
a newline yields a list with one empty string. -/
theorem fix_input_none_and_empty :
    run_fix_input_data none = [] ∧ run_fix_input_data (some []) = [[]] := by
  exact ⟨rfl, rfl⟩

theorem splitOnChar_not_mem (c : Char) (l : List Char) (q : List Char)
    (hq : q ∈ splitOnChar c l) : c ∉ q := by
  induction l generalizing q with
  | nil =>
    have h : splitOnChar c [] = [[]] := rfl
    rw [h] at hq
    simp at hq
    subst hq
    simp
  | cons x xs ih =>
    by_cases hx : x = c
    · subst hx
      rw [splitOnChar_cons_self] at hq
      rcases List.mem_cons.mp hq with h1 | h1
      · subst h1
        simp
      · exact ih q h1
    · rw [splitOnChar_cons_ne _ _ _ hx] at hq
      cases hS : splitOnChar c xs with
      | nil => exact absurd hS (splitOnChar_ne_nil c xs)
      | cons p ps =>
        rw [hS] at hq
        have h2 : glueHead x (p :: ps) = (x :: p) :: ps := rfl
        rw [h2] at hq
        rcases List.mem_cons.mp hq with h1 | h1
        · subst h1
          intro hc
          rcases List.mem_cons.mp hc with h3 | h3
          · exact hx h3.symm
          · exact ih p (by rw [hS]; exact List.mem_cons_self p ps) h3
        · exact ih q (by rw [hS]; exact List.mem_cons_of_mem p h1)

/-- C10: no element of the line sequence returned by
run_fix_input_data contains a real newline character. -/
theorem fix_input_no_newline (raw : Option (List Char)) (line : List Char)
    (h : line ∈ run_fix_input_data raw) : '\n' ∉ line := by
  cases raw with
  | none => simp [run_fix_input_data] at h
  | some r =>
    have hshape : run_fix_input_data (some r) =
        splitOnChar '\n'
          (if 0 < r.length then
            (if containsEsc r then joinWithChar '\n' (splitOnEsc r) else r)
          else r) := rfl
    rw [hshape] at h
    exact splitOnChar_not_mem '\n' _ line h

/-- Witness for C10 at a concrete input: the raw text a newline b
normalizes to two lines, the first line is a member, and it holds no
newline. -/
theorem fix_input_no_newline_at_sample :
    ['a'] ∈ run_fix_input_data (some ['a', '\n', 'b']) ∧ '\n' ∉ (['a'] : List Char) :=
  ⟨by decide, fix_input_no_newline (some ['a', '\n', 'b']) ['a'] (by decide)⟩

/-- One observation of the remote channel at a poll iteration: whether
a non blocking read would succeed, the chunk such a read returns, and
whether the remote exit status is ready.  The source caps a read at
self.bufsize bytes; the chunk is whatever session.recv returns. -/
structure PollObs where
  recvReady : Bool
  data : List Char
  exitStatusReady : Bool

/-- Terminal and transient states of the poll engine described by the
specification.  The source computes the timeout machinery but the loop
body never performs any transition out of running. -/
inductive PollStatus where
  | running
  | completed
  | timedOut
  | errored
  deriving DecidableEq

/-- State of one evaluation of the MySSH._run_poll generator.  The
fields mirror the locals of the source: input_idx, timeout_flag and
output are initialized before the loop and never touched inside it;
yielded records the chunks the generator has yielded; sent records the
lines written to the channel input (none are ever written); blockingOff
records that session.setblocking zero ran before the loop. -/
structure PollState where
  inputIdx : Nat
  timeoutFlag : Bool
  output : List Char
  yielded : List (List Char)
  sent : List (List Char)
  blockingOff : Bool
  status : PollStatus

/-- Initialization of MySSH._run_poll before the loop: input_idx zero,
timeout_flag false, output empty, setblocking zero already executed.
The source also computes interval, maxseconds, maxcount and the start
wall clock, but none of them is read by the loop, so they do not
appear in the state. -/
def run_poll_init : PollState :=
  { inputIdx := 0, timeoutFlag := false, output := [], yielded := [], sent := [],
    blockingOff := true, status := PollStatus.running }

/-- One iteration of the while True loop of MySSH._run_poll, exactly as
written in the source: if the channel has data ready, read a chunk and
yield it; nothing else happens.  No exit status query, no timeout
check, no input delivery, no break. -/
def run_poll_body (obs : PollObs) (st : PollState) : PollState :=
  if obs.recvReady then { st with yielded := st.yielded ++ [obs.data] } else st

/-- Evaluation of the MySSH._run_poll generator for a given number of
loop iterations against a channel oracle.  The timeout and input data
parameters of the source reach the function but are never consulted by
the loop. -/
def run_poll (timeout : Nat) (inputData : List (List Char)) (env : Nat → PollObs) :
    Nat → PollState
  | 0 => run_poll_init
  | n + 1 => run_poll_body (env n) (run_poll timeout inputData env n)

/-- Embedding of MySSH._run_send_input: writes the input data to the
channel input stream when the stream is still open.  This function is
defined in the source but no call site exists; in particular the poll
loop never invokes it. -/
def run_send_input (stdinClosed : Bool) (inputData : Option (List Char)) :
    List (List Char) :=
  match inputData with
  | none => []
  | some d => if stdinClosed then [] else [d]

/-- Embedding of MySSH.get_exit_status: a blocking fetch of the remote
exit status of the current session. -/
def get_exit_status (sessionExitStatus : Int) : Int := sessionExitStatus

theorem run_poll_succ (timeout : Nat) (inputData : List (List Char)) (env : Nat → PollObs)
    (n : Nat) :
    run_poll timeout inputData env (n + 1) =
      run_poll_body (env n) (run_poll timeout inputData env n) := rfl

theorem run_poll_status_running (timeout : Nat) (inputData : List (List Char))
    (env : Nat → PollObs) (n : Nat) :
    (run_poll timeout inputData env n).status = PollStatus.running := by
  induction n with
  | zero => rfl
  | succ n ih =>
    rw [run_poll_succ]
    unfold run_poll_body
    split
    · exact ih
    · exact ih

/-- C1 refutation support: after any number of loop iterations against
any channel oracle, the poll loop of MySSH._run_poll has not reached
the TIMED_OUT state; the loop body checks only recv_ready and never
the deadline it computed, so it is an unconditional infinite loop. -/
theorem run_poll_never_times_out (timeout : Nat) (inputData : List (List Char))
    (env : Nat → PollObs) (n : Nat) :
    (run_poll timeout inputData env n).status ≠ PollStatus.timedOut := by
  rw [run_poll_status_running]
  intro h
  exact PollStatus.noConfusion h

/-- C2 refutation support: after any number of loop iterations against
any channel oracle, including oracles reporting the exit status ready
and no data available, the poll loop has not reached the COMPLETED
state; the loop body never queries exit status readiness. -/
theorem run_poll_never_completes (timeout : Nat) (inputData : List (List Char))
    (env : Nat → PollObs) (n : Nat) :
    (run_poll timeout inputData env n).status ≠ PollStatus.completed := by
  rw [run_poll_status_running]
  intro h
  exact PollStatus.noConfusion h

/-- C3 refutation support: the poll loop never writes any queued input
line to the channel input stream and never advances the input index,
whatever the oracle reports and whatever input lines are queued;
MySSH._run_send_input is dead code. -/
theorem run_poll_never_sends (timeout : Nat) (inputData : List (List Char))
    (env : Nat → PollObs) (n : Nat) :
    (run_poll timeout inputData env n).sent = [] ∧
      (run_poll timeout inputData env n).inputIdx = 0 := by
  induction n with
  | zero => exact ⟨rfl, rfl⟩
  | succ n ih =>
    rw [run_poll_succ]
    unfold run_poll_body
    split
    · exact ⟨ih.1, ih.2⟩
    · exact ⟨ih.1, ih.2⟩

/-- Logger levels reachable through MySSH.set_verbosity. -/
inductive LogLevel where
  | infoLevel
  | errorLevel
  deriving DecidableEq

/-- Embedding of MySSH.set_verbosity: a true verbosity selects the info
level, otherwise the error level. -/
def set_verbosity (verbose : Bool) : LogLevel :=
  if verbose then LogLevel.infoLevel else LogLevel.errorLevel

/-- The informational log lines MySSH.run can emit. -/
inductive LogEvent where
  | logRunningCommand
  | logNoConnection
  | logStartSession
  deriving DecidableEq

/-- The logger emits an informational line only when the level is info;
at the error level the line is formatted and then dropped. -/
def emitInfo (level : LogLevel) (e : LogEvent) : List LogEvent :=
  if level = LogLevel.infoLevel then [e] else []

/-- The one Python exception the embedding needs: reading an object
attribute that was never assigned. -/
inductive PyExn where
  | attributeError
  deriving DecidableEq

/-- Side effects MySSH.run performs on the transport and session while
it executes: opening the session, combining stderr into stdout,
requesting a pseudo terminal, requesting execution of the command, and
whether the body of the poll generator ran at all during run, that is
whether setblocking zero or any channel recv happened inside run. -/
structure RunEffects where
  sessionOpened : Bool
  combineStderrSet : Bool
  ptyRequested : Bool
  execCommand : Option (List Char)
  setBlockingCalled : Bool
  recvCalled : Bool
  deriving DecidableEq

/-- The value MySSH.run hands back to its caller: either the literal
pair of the sentinel status with an error message, produced on the
disconnected path, or the unevaluated MySSH._run_poll generator object,
described by the arguments it was created with. -/
inductive RunOutput where
  | immediate (status : Int) (msg : List Char)
  | chunkStream (timeout : Nat) (inputData : List (List Char))
  deriving DecidableEq

/-- The part of a MySSH object that MySSH.run consults: the transport
handle or its absence, and whether the username, hostname and port
attributes exist on the object.  The constructor of MySSH does not
assign them; MySSH.connect assigns all three before attempting the
network connection, so they exist exactly when some connect call has
been made. -/
structure MySSHState where
  transport : Option Unit
  connAttrsAssigned : Bool

/-- The error message returned by MySSH.run when no connection is
established. -/
def errNoConnection : List Char := ("ERROR: connection not established\n").toList

/-- Embedding of MySSH.run.  The running command line is logged first.
If the transport is absent, run logs the no connection line, which
formats the username, hostname and port attributes: when those were
never assigned the attribute access raises, otherwise run returns the
sentinel pair.  If the transport is present, run normalizes the input,
opens and configures the session, requests execution, and returns the
generator object created by calling MySSH._run_poll; creating a Python
generator runs none of its body, so no setblocking call and no channel
read happen inside run. -/
def run (level : LogLevel) (st : MySSHState) (cmd : List Char)
    (inputData : Option (List Char)) (timeout : Nat) :
    Except PyExn (List LogEvent × RunEffects × RunOutput) :=
  match st.transport with
  | none =>
    if st.connAttrsAssigned then
      Except.ok
        (emitInfo level LogEvent.logRunningCommand ++ emitInfo level LogEvent.logNoConnection,
          { sessionOpened := false, combineStderrSet := false, ptyRequested := false,
            execCommand := none, setBlockingCalled := false, recvCalled := false },
          RunOutput.immediate (-1) errNoConnection)
    else Except.error PyExn.attributeError
  | some _ =>
    Except.ok
      (emitInfo level LogEvent.logRunningCommand ++ emitInfo level LogEvent.logStartSession,
        { sessionOpened := true, combineStderrSet := true, ptyRequested := true,
          execCommand := some cmd, setBlockingCalled := false, recvCalled := false },
        RunOutput.chunkStream timeout (run_fix_input_data inputData))

/-- A sample command line for concrete statements. -/
def cmdSample : List Char := ("uname -a").toList

/-- C4 counterexample: on a fresh MySSH object, where no connect call
ever assigned the username, hostname and port attributes, run with the
transport absent raises an attribute error from the logging line
instead of returning the sentinel pair. -/
theorem run_never_connected_attr_error :
    run LogLevel.errorLevel { transport := none, connAttrsAssigned := false }
        cmdSample none 10 =
      Except.error PyExn.attributeError := rfl

/-- C4 amended: once a connect call has assigned the connection
attributes, run on a disconnected object returns immediately for every
command, input and timeout: it opens no session, enters no poll loop,
and the caller receives the sentinel status minus one together with the
error message and no command output. -/
theorem run_disconnected_returns_sentinel (level : LogLevel) (cmd : List Char)
    (inputData : Option (List Char)) (timeout : Nat) :
    run level { transport := none, connAttrsAssigned := true } cmd inputData timeout =
      Except.ok
        (emitInfo level LogEvent.logRunningCommand ++ emitInfo level LogEvent.logNoConnection,
          { sessionOpened := false, combineStderrSet := false, ptyRequested := false,
            execCommand := none, setBlockingCalled := false, recvCalled := false },
          RunOutput.immediate (-1) errNoConnection) := rfl

/-- The functional result of a run call: everything the caller can
observe except the informational log lines. -/
def functionalResult (r : Except PyExn (List LogEvent × RunEffects × RunOutput)) :
    Except PyExn (RunEffects × RunOutput) :=
  r.map (fun t => t.2)

/-- C8: two run calls that differ only in the verbosity handed to
set_verbosity produce the same functional result on every state,
command, input and timeout; the log level decides only which
informational lines are emitted. -/
theorem run_verbosity_noninterference (st : MySSHState) (cmd : List Char)
    (inputData : Option (List Char)) (timeout : Nat) :
    functionalResult (run (set_verbosity true) st cmd inputData timeout) =
      functionalResult (run (set_verbosity false) st cmd inputData timeout) := by
  obtain ⟨tr, attrs⟩ := st
  cases tr with
  | none => cases attrs <;> rfl
  | some u => rfl

/-- C7 refutation support: on a connected object, in place of a pair of
the accumulated output with the numeric exit status, run hands the
caller the raw MySSH._run_poll generator, and that generator never
reaches the COMPLETED state however long it is driven, so the promised
buffered result never exists. -/
theorem run_connected_returns_stream_only (level : LogLevel) (attrs : Bool)
    (cmd : List Char) (inputData : Option (List Char)) (timeout : Nat) :
    (run level { transport := some (), connAttrsAssigned := attrs } cmd inputData
        timeout).map (fun t => t.2.2) =
      Except.ok (RunOutput.chunkStream timeout (run_fix_input_data inputData)) ∧
    ∀ (env : Nat → PollObs) (n : Nat),
      (run_poll timeout (run_fix_input_data inputData) env n).status ≠
        PollStatus.completed := by
  refine ⟨rfl, fun env n => ?_⟩
  rw [run_poll_status_running]
  intro h
  exact PollStatus.noConfusion h

/-- C9: on a connected object, run eagerly opens the session, combines
the error stream, requests a pseudo terminal and requests execution of
the command, yet performs no setblocking call and no channel read
itself; those happen only once the returned chunk sequence is
advanced, at which point the generator initialization has set the
channel non blocking before any iteration runs. -/
theorem run_eager_setup_lazy_poll (level : LogLevel) (attrs : Bool) (cmd : List Char)
    (inputData : Option (List Char)) (timeout : Nat) :
    (run level { transport := some (), connAttrsAssigned := attrs } cmd inputData
        timeout).map (fun t => t.2.1) =
      Except.ok
        { sessionOpened := true, combineStderrSet := true, ptyRequested := true,
          execCommand := some cmd, setBlockingCalled := false, recvCalled := false } ∧
    ∀ (t2 : Nat) (i : List (List Char)) (env : Nat → PollObs),
      (run_poll t2 i env 0).blockingOff = true ∧ (run_poll t2 i env 0).yielded = [] :=
  ⟨rfl, fun _ _ _ => ⟨rfl, rfl⟩⟩

end SshPoll
